import Mathlib

set_option maxHeartbeats 1600000
set_option maxRecDepth 8000

/-
Shallow embedding of src/main.rs of the investigatingsevens repository: a
"Sevens" card-game simulator with a per-suit Stack state machine, a four-stack
GameBoard, a GameState (board + hands + turn pointer), a Decision classifier
(assess_decision) and an explicit-stack Branch Explorer (the while loop in
main, modelled by loopStep / loopIter).

Modelling conventions:
- machine integers become Nat: the u8 turn pointer is compared against 255
  exactly as the source does, and the one wrapping u8 subtraction
  (players.len() as u8 - 1) is written as (len % 256 + 255) % 256; the usize
  counter comparison (value == max - 1) in MultiCounter is written with
  wrapping arithmetic modulo 2^64 (USIZE);
- fallible Rust code returns Except; Rust panics (out-of-bounds indexing)
  are modelled as Option.none (distribute_cards, GameState.new) or as an
  error result in branches that are marked unreachable, never as a success;
- the randomness of generate_new_shuffle is out of scope (the spec excludes
  deck construction); GameState.new therefore takes the shuffled deck as an
  explicit parameter;
- the MultiCounter iterator is consumed through a fuel-bounded runner
  (counterRun); fuel 100 strictly exceeds the 52 iterations the counter
  performs for every accepted player count.
-/

inductive SuitEnum where
  | Spade | Club | Heart | Diamond
  deriving DecidableEq

inductive NumberEnum where
  | Ace | Two | Three | Four | Five | Six | Seven
  | Eight | Nine | Ten | Jack | Queen | King
  deriving DecidableEq

structure Card where
  suit : SuitEnum
  number : NumberEnum
  deriving DecidableEq

inductive StackError where
  | InvalidStackState
  | InvalidUpStack
  | InvalidDownStack
  | CompletedStackPlayedOn
  | UnplayableCardNumber
  deriving DecidableEq

structure Stack where
  suit : SuitEnum
  up_card : Option Card
  down_card : Option Card
  deriving DecidableEq

def Stack.new (suit : SuitEnum) : Stack := ⟨suit, none, none⟩

/-- The inner match on `self.up_card.unwrap().number` in
`Stack::get_playable_cards` (the `playable_up` local). -/
def playable_up : NumberEnum → Except StackError (Option NumberEnum)
  | .Seven => .ok (some .Eight)
  | .Eight => .ok (some .Nine)
  | .Nine => .ok (some .Ten)
  | .Ten => .ok (some .Jack)
  | .Jack => .ok (some .Queen)
  | .Queen => .ok (some .King)
  | .King => .ok none
  | _ => .error .InvalidUpStack

/-- The inner match on `self.down_card.unwrap().number` in
`Stack::get_playable_cards` (the `playable_down` local). -/
def playable_down : NumberEnum → Except StackError (Option NumberEnum)
  | .Ace => .ok none
  | .Two => .ok (some .Ace)
  | .Three => .ok (some .Two)
  | .Four => .ok (some .Three)
  | .Five => .ok (some .Four)
  | .Six => .ok (some .Five)
  | .Seven => .ok (some .Six)
  | _ => .error .InvalidDownStack

def Stack.get_playable_cards (st : Stack) : Except StackError (Option (List Card)) :=
  match st.up_card, st.down_card with
  | none, none => .ok (some [⟨st.suit, .Seven⟩])
  | some u, some d =>
    match playable_up u.number with
    | .error e => .error e
    | .ok pu =>
      match playable_down d.number with
      | .error e => .error e
      | .ok pd =>
        match pu, pd with
        | some a, some b => .ok (some [⟨st.suit, a⟩, ⟨st.suit, b⟩])
        | some a, none => .ok (some [⟨st.suit, a⟩])
        | none, some b => .ok (some [⟨st.suit, b⟩])
        | none, none => .ok none
  | some _, none => .error .InvalidStackState
  | none, some _ => .error .InvalidStackState

def Stack.play_card (st : Stack) (card_number : NumberEnum) : Except StackError Stack :=
  match st.get_playable_cards with
  | .error e => .error e
  | .ok none => .error .CompletedStackPlayedOn
  | .ok (some playable_cards) =>
    if (⟨st.suit, card_number⟩ : Card) ∈ playable_cards then
      match card_number with
      | .Ace | .Two | .Three | .Four | .Five | .Six =>
        .ok { st with down_card := some ⟨st.suit, card_number⟩ }
      | .Seven =>
        .ok { st with up_card := some ⟨st.suit, .Seven⟩,
                      down_card := some ⟨st.suit, .Seven⟩ }
      | .Eight | .Nine | .Ten | .Jack | .Queen | .King =>
        .ok { st with up_card := some ⟨st.suit, card_number⟩ }
    else .error .UnplayableCardNumber

/-- Numeric rank value, Ace = 1 .. King = 13 (the order declared on
`NumberEnum` in the source). -/
def rv : NumberEnum → Nat
  | .Ace => 1 | .Two => 2 | .Three => 3 | .Four => 4 | .Five => 5 | .Six => 6
  | .Seven => 7 | .Eight => 8 | .Nine => 9 | .Ten => 10 | .Jack => 11
  | .Queen => 12 | .King => 13

def allRanks : List NumberEnum :=
  [.Ace, .Two, .Three, .Four, .Five, .Six, .Seven,
   .Eight, .Nine, .Ten, .Jack, .Queen, .King]

/-- The list inside an `Ok(Some _)` result of `get_playable_cards`, and `[]`
for `Ok(None)` or an error. -/
def playList (st : Stack) : List Card :=
  match st.get_playable_cards with
  | .ok (some l) => l
  | _ => []

def gpOk (st : Stack) : Bool :=
  match st.get_playable_cards with
  | .ok _ => true
  | .error _ => false

def someNonemptyB (st : Stack) : Bool :=
  match st.get_playable_cards with
  | .ok (some l) => !l.isEmpty
  | _ => true

def upRankO (st : Stack) : Nat :=
  match st.up_card with
  | some u => rv u.number
  | none => 0

def downRankO (st : Stack) : Nat :=
  match st.down_card with
  | some d => rv d.number
  | none => 14

def upIsKing (st : Stack) : Bool :=
  match st.up_card with
  | some u => decide (u.number = .King)
  | none => false

def downIsAce (st : Stack) : Bool :=
  match st.down_card with
  | some d => decide (d.number = .Ace)
  | none => false

/-- Number of cards played on this stack so far: 0 for a virgin stack,
`rv up + 1 - rv down` once the Seven has founded both piles. -/
def playedCount (st : Stack) : Nat :=
  match st.up_card, st.down_card with
  | some u, some d => rv u.number + 1 - rv d.number
  | _, _ => 0

/-- Well-formed (valid) stack states: the data-model invariant of the spec.
Either both piles are unset, or both are set with the stack's own suit, the
up pile in Seven..King and the down pile in Ace..Seven. -/
def wfB : Stack → Bool
  | ⟨_, none, none⟩ => true
  | ⟨su, some u, some d⟩ =>
    decide (u.suit = su) && decide (d.suit = su)
      && decide (7 ≤ rv u.number) && decide (rv d.number ≤ 7)
  | ⟨_, none, some _⟩ => false
  | ⟨_, some _, none⟩ => false

/-- All per-play facts about a well-formed stack, as one decidable check. -/
def stepB (st : Stack) (n : NumberEnum) : Bool :=
  match st.play_card n with
  | .ok st2 =>
    decide ((⟨st.suit, n⟩ : Card) ∈ playList st)
    && wfB st2
    && decide (st2.suit = st.suit)
    && decide (∀ c ∈ playList st2, c.number ≠ n)
    && decide (st.up_card.isSome = true → st2.up_card.isSome = true)
    && decide (st.down_card.isSome = true → st2.down_card.isSome = true)
    && decide (upRankO st ≤ upRankO st2)
    && decide (downRankO st2 ≤ downRankO st)
    && decide (upIsKing st = true → upIsKing st2 = true)
    && decide (downIsAce st = true → downIsAce st2 = true)
    && decide (playedCount st2 = playedCount st + 1)
  | .error e =>
    decide ((⟨st.suit, n⟩ : Card) ∉ playList st)
    && (match st.get_playable_cards with
        | .ok none => decide (e = .CompletedStackPlayedOn)
        | _ => decide (e = .UnplayableCardNumber))

/-- All facts about a well-formed stack needed by the board and state layers,
as one decidable check (proved to follow from `wfB` below). -/
def masterB (st : Stack) : Bool :=
  gpOk st
  && someNonemptyB st
  && decide (∀ c ∈ playList st, c.suit = st.suit)
  && decide (upIsKing st = true → ∀ c ∈ playList st, rv c.number ≤ 6)
  && decide (downIsAce st = true → ∀ c ∈ playList st, 8 ≤ rv c.number)
  && allRanks.all (fun n => stepB st n)

structure GameBoard where
  spade_stack : Stack
  club_stack : Stack
  heart_stack : Stack
  diamond_stack : Stack
  deriving DecidableEq

inductive GameBoardError where
  | stackError (e : StackError) (suitName : String)
  deriving DecidableEq

def GameBoard.new : GameBoard :=
  ⟨Stack.new .Spade, Stack.new .Club, Stack.new .Heart, Stack.new .Diamond⟩

def GameBoard.get_playable_cards (b : GameBoard) :
    Except GameBoardError (Option (List Card)) :=
  match b.spade_stack.get_playable_cards with
  | .error e => .error (.stackError e "Spades")
  | .ok os =>
    match b.club_stack.get_playable_cards with
    | .error e => .error (.stackError e "Clubs")
    | .ok oc =>
      match b.heart_stack.get_playable_cards with
      | .error e => .error (.stackError e "Hearts")
      | .ok oh =>
        match b.diamond_stack.get_playable_cards with
        | .error e => .error (.stackError e "Diamonds")
        | .ok od =>
          let output := os.getD [] ++ oc.getD [] ++ oh.getD [] ++ od.getD []
          if output.length > 0 then .ok (some output) else .ok none

def GameBoard.play_card (b : GameBoard) (card : Card) :
    Except GameBoardError GameBoard :=
  match card.suit with
  | .Spade =>
    match b.spade_stack.play_card card.number with
    | .error e => .error (.stackError e "Spades")
    | .ok st => .ok { b with spade_stack := st }
  | .Club =>
    match b.club_stack.play_card card.number with
    | .error e => .error (.stackError e "Clubs")
    | .ok st => .ok { b with club_stack := st }
  | .Heart =>
    match b.heart_stack.play_card card.number with
    | .error e => .error (.stackError e "Hearts")
    | .ok st => .ok { b with heart_stack := st }
  | .Diamond =>
    match b.diamond_stack.play_card card.number with
    | .error e => .error (.stackError e "Diamonds")
    | .ok st => .ok { b with diamond_stack := st }

/-- Concatenation of the four stacks' (possibly empty) playable lists, in the
order the board concatenates them: spades, clubs, hearts, diamonds. -/
def boardPlayList (b : GameBoard) : List Card :=
  playList b.spade_stack ++ playList b.club_stack
    ++ playList b.heart_stack ++ playList b.diamond_stack

def boardPlayedCount (b : GameBoard) : Nat :=
  playedCount b.spade_stack + playedCount b.club_stack
    + playedCount b.heart_stack + playedCount b.diamond_stack

/-- Well-formed board: all four stacks well-formed and holding their own suit
(true of `GameBoard::new` and preserved by every play). -/
def wf4B (b : GameBoard) : Bool :=
  wfB b.spade_stack && wfB b.club_stack && wfB b.heart_stack && wfB b.diamond_stack
    && decide (b.spade_stack.suit = .Spade)
    && decide (b.club_stack.suit = .Club)
    && decide (b.heart_stack.suit = .Heart)
    && decide (b.diamond_stack.suit = .Diamond)

structure Player where
  hand : List Card
  deriving DecidableEq

def Player.new : Player := ⟨[]⟩

inductive GameStateError where
  | TooManyPlayers
  | OverflowError
  | gameBoardError (e : GameBoardError)
  | MoreThanOnePlayableCard (s : String)
  | NoPlayableCard (s : String)
  | OnlyOnePlayableCard
  | UnplayableCard
  deriving DecidableEq

structure GameState where
  game_board : GameBoard
  players : List Player
  player_turn : Nat
  deriving DecidableEq

def GameState.get_playable_cards (s : GameState) :
    Except GameStateError (Option (List Card)) :=
  match s.game_board.get_playable_cards with
  | .ok cards_option => .ok cards_option
  | .error e => .error (.gameBoardError e)

/-- `pass_turn`: `player_turn` is a u8; `players.len() as u8 - 1` is the
wrapping u8 subtraction, written (len % 256 + 255) % 256. -/
def GameState.pass_turn (s : GameState) : Except GameStateError GameState :=
  if s.player_turn = 255 then .error .OverflowError
  else if s.player_turn < (s.players.length % 256 + 255) % 256 then
    .ok { s with player_turn := s.player_turn + 1 }
  else
    .ok { s with player_turn := 0 }

def GameState.play_only_playable_card (s : GameState) :
    Except GameStateError GameState :=
  match s.game_board.get_playable_cards with
  | .error e => .error (.gameBoardError e)
  | .ok none => .error (.NoPlayableCard "play_only_playable_card")
  | .ok (some card) =>
    if card.length > 1 then .error (.MoreThanOnePlayableCard "play_only_playable_card")
    else
      match card with
      | [] =>
        -- Rust would panic here (card[0] on an empty Vec); unreachable because
        -- the board never returns Ok(Some []).  Modelled as a non-success.
        .error (.NoPlayableCard "panic: index out of bounds")
      | c :: _ =>
        match s.game_board.play_card c with
        | .error e => .error (.gameBoardError e)
        | .ok b => GameState.pass_turn { s with game_board := b }

def GameState.play_card_and_return_new (s : GameState) (card : Card) :
    Except GameStateError GameState :=
  match s.game_board.get_playable_cards with
  | .error e => .error (.gameBoardError e)
  | .ok none => .error (.NoPlayableCard "play_card_and_return")
  | .ok (some result) =>
    match result.length with
    | 0 => .error (.NoPlayableCard "play_card_and_return")
    | 1 => .error .OnlyOnePlayableCard
    | _ + 2 =>
      if card ∈ result then
        match s.game_board.play_card card with
        | .error e => .error (.gameBoardError e)
        | .ok b => GameState.pass_turn { s with game_board := b }
      else .error .UnplayableCard

inductive Decision where
  | Victory (player : Nat)
  | NoPlayableCards (state : GameState)
  | OnePlayableCard (state : GameState)
  | MultiplePlayableCards (states : List GameState)
  deriving DecidableEq

/-- The `.map(...).collect::<Result<Vec<_>, _>>()` in the branching arm of
`assess_decision`: first error wins, order preserved. -/
def mapPlays (s : GameState) : List Card → Except GameStateError (List GameState)
  | [] => .ok []
  | c :: rest =>
    match s.play_card_and_return_new c with
    | .error e => .error e
    | .ok t =>
      match mapPlays s rest with
      | .error e => .error e
      | .ok ts => .ok (t :: ts)

def assess_decision (s : GameState) : Except GameStateError Decision :=
  match s.players.get? s.player_turn with
  | none =>
    -- Rust would panic here (players[player_turn] out of bounds); unreachable
    -- for states whose turn pointer respects the data-model invariant.
    .error (.NoPlayableCard "panic: player_turn out of range")
  | some pl =>
    if pl.hand.isEmpty then .ok (.Victory s.player_turn)
    else
      match s.get_playable_cards with
      | .error e => .error e
      | .ok none =>
        match s.pass_turn with
        | .error e => .error e
        | .ok s2 => .ok (.NoPlayableCards s2)
      | .ok (some playable_cards) =>
        if playable_cards.length = 1 then
          match s.play_only_playable_card with
          | .error e => .error e
          | .ok s2 => .ok (.OnePlayableCard s2)
        else
          match mapPlays s playable_cards with
          | .error e => .error e
          | .ok l => .ok (.MultiplePlayableCards l)

/-- The successor states carried by a decision. -/
def decStates : Decision → List GameState
  | .Victory _ => []
  | .NoPlayableCards s => [s]
  | .OnePlayableCard s => [s]
  | .MultiplePlayableCards l => l

def process_branches (branches : List GameState) (decision : Decision) :
    Except String (List GameState × GameState) :=
  match decision with
  | .Victory _ => .error "Victory decision leak"
  | .NoPlayableCards state => .ok (branches, state)
  | .OnePlayableCard state => .ok (branches, state)
  | .MultiplePlayableCards states =>
    let bs := branches ++ states
    match bs.getLast? with
    | some state => .ok (bs.dropLast, state)
    | none => .error "No states in branches"

/-- One configuration of main's while loop: the pending-branches Vec, the
victories Vec and the current `game_state : Option<GameState>`. -/
structure LoopConfig where
  branches : List GameState
  victories : List Nat
  current : Option GameState

def initialLoopConfig : LoopConfig := ⟨[], [], none⟩

/-- The guard of main's while loop. -/
def loopGuard (cfg : LoopConfig) : Bool :=
  cfg.victories.isEmpty || !cfg.branches.isEmpty

/-- One iteration of main's while loop body.  When `current` is unset the loop
assesses the initial state; non-Victory decisions go through
`process_branches` and the produced state becomes the next `current`. -/
def loopStep (initial : GameState) (cfg : LoopConfig) :
    Except (GameStateError ⊕ String) LoopConfig :=
  match assess_decision (cfg.current.getD initial) with
  | .error e => .error (.inl e)
  | .ok (.Victory player) =>
    .ok { cfg with victories := cfg.victories ++ [player], current := none }
  | .ok d =>
    match process_branches cfg.branches d with
    | .error s => .error (.inr s)
    | .ok (bs, nxt) =>
      .ok { branches := bs, victories := cfg.victories, current := some nxt }

def loopIter (initial : GameState) : Nat → LoopConfig →
    Except (GameStateError ⊕ String) LoopConfig
  | 0, cfg => .ok cfg
  | n + 1, cfg =>
    match loopStep initial cfg with
    | .error e => .error e
    | .ok cfg2 => loopIter initial n cfg2

/-- usize width used by the wrapping arithmetic in MultiCounter. -/
def USIZE : Nat := 2 ^ 64

structure MultiCounter where
  counter_maxes : List Nat
  require_simultaneous_completion : Bool
  counter_values : List Nat
  counter_complete : List Bool

def MultiCounter.new (counter_maxes : List Nat)
    (require_simultaneous_completion : Bool) : MultiCounter :=
  ⟨counter_maxes, require_simultaneous_completion,
   counter_maxes.map (fun _ => 0), counter_maxes.map (fun _ => false)⟩

def MultiCounter.get_values (mc : MultiCounter) : List Nat := mc.counter_values

def MultiCounter.check_complete (mc : MultiCounter) : Bool :=
  match mc.require_simultaneous_completion with
  | true =>
    mc.counter_values.all (fun v => decide (v = 0))
      && mc.counter_complete.all (fun c => c)
  | false => mc.counter_complete.all (fun c => c)

/-- `increment`: the Rust closure compares `value == maxes[index] - 1` with
wrapping usize subtraction; equivalently `(value + 1) % 2^64 = max % 2^64`
for the values (< 2^64) the counter holds.  The values and maxes lists always
have equal length (they are built together in `new`), so the zip loses
nothing. -/
def MultiCounter.increment (mc : MultiCounter) : MultiCounter :=
  { mc with
    counter_values :=
      (mc.counter_values.zip mc.counter_maxes).map
        (fun p => if (p.1 + 1) % USIZE = p.2 % USIZE then 0 else (p.1 + 1) % USIZE),
    counter_complete :=
      ((mc.counter_values.zip mc.counter_maxes).zip mc.counter_complete).map
        (fun p => if (p.1.1 + 1) % USIZE = p.1.2 % USIZE then true else p.2) }

/-- Fuel-bounded consumption of the MultiCounter iterator: yields
`get_values`, then increments, until `check_complete` (or fuel runs out;
fuel 100 is never the binding bound for player counts ≤ 26). -/
def counterRun : Nat → MultiCounter → List (List Nat)
  | 0, _ => []
  | fuel + 1, mc =>
    match mc.check_complete with
    | true => []
    | false => mc.get_values :: counterRun fuel mc.increment

/-- One `players[v[0]].hand.push(deck[v[1]].clone())` step; `none` models the
index-out-of-bounds panic. -/
def distStep (deck : List Card) (acc : Option (List Player)) (v : List Nat) :
    Option (List Player) :=
  acc.bind fun ps =>
    match v[0]?, v[1]? with
    | some i, some j =>
      match ps[i]?, deck[j]? with
      | some p, some c => some (ps.set i ⟨p.hand ++ [c]⟩)
      | _, _ => none
    | _, _ => none

def distribute_cards (number_of_players : Nat) (deck : List Card) :
    Option (List Player) :=
  (counterRun 100 (MultiCounter.new [number_of_players, 52] false)).foldl
    (distStep deck) (some (List.replicate number_of_players Player.new))

/-- `GameState::new`, with the shuffled deck passed explicitly (the shuffle
itself is excluded glue).  The outer Option models the panic reachable through
`distribute_cards`. -/
def GameState.new (number_of_players : Nat) (deck : List Card) :
    Option (Except GameStateError GameState) :=
  if number_of_players > 26 then some (.error .TooManyPlayers)
  else
    (distribute_cards number_of_players deck).map
      (fun players => .ok ⟨GameBoard.new, players, 0⟩)

/-- Hand-length transformer mirroring `distStep` but independent of the card
values: used to compute deal hand sizes for an arbitrary 52-card deck. -/
def TL (dl : Nat) (acc : Option (List Nat)) (v : List Nat) : Option (List Nat) :=
  acc.bind fun ls =>
    match v[0]?, v[1]? with
    | some i, some j =>
      match ls[i]? with
      | some hl => if j < dl then some (ls.set i (hl + 1)) else none
      | none => none
    | _, _ => none

/-- Iterated `pass_turn`. -/
def passTurnIter : Nat → GameState → Except GameStateError GameState
  | 0, s => .ok s
  | n + 1, s =>
    match s.pass_turn with
    | .error e => .error e
    | .ok t => passTurnIter n t

/-- Stacks reachable from `Stack::new` by successful plays. -/
inductive ReachableStack : Stack → Prop where
  | base (su : SuitEnum) : ReachableStack (Stack.new su)
  | step {st st2 : Stack} (n : NumberEnum) :
      ReachableStack st → st.play_card n = .ok st2 → ReachableStack st2

/-- Zero or more successful plays leading from one stack state to another. -/
def ReachPlays (a b : Stack) : Prop :=
  Relation.ReflTransGen (fun x y => ∃ n, x.play_card n = .ok y) a b

/-- States whose observable data respects the program's own invariants: a
well-formed board, a turn pointer inside the player list, at most 26 players
and no empty hand.  Every state the Branch Explorer manipulates from a
4-player deal satisfies it. -/
def RunInv (s : GameState) : Prop :=
  wf4B s.game_board = true
    ∧ s.player_turn < s.players.length
    ∧ s.players.length ≤ 26
    ∧ ∀ p ∈ s.players, p.hand ≠ []

/-- Loop-configuration invariant for the Branch Explorer. -/
def CfgInv (cfg : LoopConfig) : Prop :=
  (∀ t ∈ cfg.branches, RunInv t)
    ∧ (∀ t, cfg.current = some t → RunInv t)
    ∧ cfg.victories = []

/-- The deck in the suit-major, rank-minor order generate_new_shuffle builds
it, before shuffling: a concrete 52-card deck used by witnesses. -/
def sortedDeck : List Card :=
  ([.Spade, .Club, .Heart, .Diamond] : List SuitEnum).flatMap
    (fun su => allRanks.map (fun n => ⟨su, n⟩))

def isOkB {ε α : Type} (r : Except ε α) : Bool :=
  match r with
  | .ok _ => true
  | .error _ => false

def assessIsMultiple (r : Except GameStateError Decision) : Bool :=
  match r with
  | .ok (.MultiplePlayableCards _) => true
  | _ => false

/-- A concrete 4-player parent state for C1: fresh board, one card per hand. -/
def c1State : GameState :=
  ⟨GameBoard.new,
   [⟨[⟨.Spade, .Ace⟩]⟩, ⟨[⟨.Spade, .Two⟩]⟩, ⟨[⟨.Spade, .Three⟩]⟩, ⟨[⟨.Spade, .Four⟩]⟩],
   0⟩

/-- The branch fork produced by `assess_decision` at `c1State`. -/
def c1Forks : List GameState :=
  match assess_decision c1State with
  | .ok (.MultiplePlayableCards l) => l
  | _ => []

/-- A concrete state for C3 whose hands contain no Seven at all. -/
def c3State : GameState :=
  ⟨GameBoard.new, [⟨[⟨.Heart, .Ace⟩]⟩, ⟨[⟨.Heart, .Two⟩]⟩], 0⟩

/-- A concrete well-formed stack for the C5 witness. -/
def c5Stack : Stack :=
  ⟨.Spade, some ⟨.Spade, .Seven⟩, some ⟨.Spade, .Seven⟩⟩

/-- A concrete state for the C7 witness. -/
def c7State : GameState :=
  ⟨GameBoard.new, [⟨[⟨.Spade, .Ace⟩]⟩], 0⟩

/-- A concrete 3-player state for the C9 witness. -/
def c9State : GameState :=
  ⟨GameBoard.new, List.replicate 3 ⟨[⟨.Spade, .Ace⟩]⟩, 0⟩

/-- The players dealt from the concrete sorted deck. -/
def c2Deal : List Player := (distribute_cards 4 sortedDeck).getD []

/-- The initial state of a 4-player game on the concrete sorted deck. -/
def c2State : GameState := ⟨GameBoard.new, c2Deal, 0⟩

/-- Every well-formed stack satisfies all the decidable per-stack facts. -/
theorem master_of_wf : ∀ st : Stack, wfB st = true → masterB st = true := by
  intro st h
  rcases st with ⟨su, up, dn⟩
  rcases up with _ | ⟨us, un⟩ <;> rcases dn with _ | ⟨ds, dn2⟩
  · cases su <;> decide
  · simp [wfB] at h
  · simp [wfB] at h
  · simp only [wfB, Bool.and_eq_true, decide_eq_true_eq] at h
    obtain ⟨⟨⟨h1, h2⟩, h3⟩, h4⟩ := h
    subst h1
    subst h2
    revert h3 h4
    cases ds <;> cases un <;> cases dn2 <;> decide

lemma mem_allRanks (n : NumberEnum) : n ∈ allRanks := by cases n <;> decide

lemma master_split {st : Stack} (h : wfB st = true) :
    gpOk st = true
    ∧ someNonemptyB st = true
    ∧ (∀ c ∈ playList st, c.suit = st.suit)
    ∧ (upIsKing st = true → ∀ c ∈ playList st, rv c.number ≤ 6)
    ∧ (downIsAce st = true → ∀ c ∈ playList st, 8 ≤ rv c.number)
    ∧ ∀ n : NumberEnum, stepB st n = true := by
  have hm := master_of_wf st h
  simp only [masterB, Bool.and_eq_true, decide_eq_true_eq, List.all_eq_true,
    and_assoc] at hm
  obtain ⟨h1, h2, h3, h4, h5, h6⟩ := hm
  exact ⟨h1, h2, h3, h4, h5, fun n => h6 n (mem_allRanks n)⟩

lemma gp_of_wf {st : Stack} (h : wfB st = true) :
    ∃ o, st.get_playable_cards = .ok o ∧ playList st = o.getD []
      ∧ ∀ l, o = some l → l ≠ [] := by
  obtain ⟨h1, h2, -⟩ := master_split h
  cases hgp : st.get_playable_cards with
  | error e =>
    unfold gpOk at h1
    rw [hgp] at h1
    simp at h1
  | ok o =>
    refine ⟨o, rfl, ?_, ?_⟩
    · unfold playList
      rw [hgp]
      cases o <;> rfl
    · intro l hl hnil
      subst hl
      subst hnil
      unfold someNonemptyB at h2
      rw [hgp] at h2
      simp at h2

lemma play_ok_facts {st st2 : Stack} {n : NumberEnum} (h : wfB st = true)
    (h2 : st.play_card n = .ok st2) :
    (⟨st.suit, n⟩ : Card) ∈ playList st
    ∧ wfB st2 = true
    ∧ st2.suit = st.suit
    ∧ (∀ c ∈ playList st2, c.number ≠ n)
    ∧ (st.up_card.isSome = true → st2.up_card.isSome = true)
    ∧ (st.down_card.isSome = true → st2.down_card.isSome = true)
    ∧ upRankO st ≤ upRankO st2
    ∧ downRankO st2 ≤ downRankO st
    ∧ (upIsKing st = true → upIsKing st2 = true)
    ∧ (downIsAce st = true → downIsAce st2 = true)
    ∧ playedCount st2 = playedCount st + 1 := by
  have hs := (master_split h).2.2.2.2.2 n
  unfold stepB at hs
  rw [h2] at hs
  simp only [Bool.and_eq_true, decide_eq_true_eq, and_assoc] at hs
  exact hs

lemma play_err_not_mem {st : Stack} {n : NumberEnum} {e : StackError}
    (h : wfB st = true) (h2 : st.play_card n = .error e) :
    (⟨st.suit, n⟩ : Card) ∉ playList st := by
  have hs := (master_split h).2.2.2.2.2 n
  unfold stepB at hs
  rw [h2] at hs
  simp only [Bool.and_eq_true, decide_eq_true_eq] at hs
  exact hs.1

lemma play_of_mem {st : Stack} {n : NumberEnum} (h : wfB st = true)
    (hm : (⟨st.suit, n⟩ : Card) ∈ playList st) :
    ∃ st2, st.play_card n = .ok st2 := by
  cases hp : st.play_card n with
  | ok st2 => exact ⟨st2, rfl⟩
  | error e => exact absurd hm (play_err_not_mem h hp)

lemma play_err_completed {st : Stack} {n : NumberEnum} {e : StackError}
    (h : wfB st = true) (h2 : st.play_card n = .error e)
    (hnone : st.get_playable_cards = .ok none) : e = .CompletedStackPlayedOn := by
  have hs := (master_split h).2.2.2.2.2 n
  unfold stepB at hs
  rw [h2] at hs
  simp only [Bool.and_eq_true, decide_eq_true_eq] at hs
  have := hs.2
  rw [hnone] at this
  simpa using this

lemma wf4_split {b : GameBoard} (h : wf4B b = true) :
    wfB b.spade_stack = true ∧ wfB b.club_stack = true
    ∧ wfB b.heart_stack = true ∧ wfB b.diamond_stack = true
    ∧ b.spade_stack.suit = .Spade ∧ b.club_stack.suit = .Club
    ∧ b.heart_stack.suit = .Heart ∧ b.diamond_stack.suit = .Diamond := by
  simp only [wf4B, Bool.and_eq_true, decide_eq_true_eq, and_assoc] at h
  exact h

lemma board_gp {b : GameBoard} (h : wf4B b = true) :
    b.get_playable_cards
      = (if boardPlayList b = [] then .ok none else .ok (some (boardPlayList b)))
    ∧ (boardPlayList b = [] ↔
        b.spade_stack.get_playable_cards = .ok none
        ∧ b.club_stack.get_playable_cards = .ok none
        ∧ b.heart_stack.get_playable_cards = .ok none
        ∧ b.diamond_stack.get_playable_cards = .ok none) := by
  obtain ⟨hs, hc, hh, hd, -, -, -, -⟩ := wf4_split h
  obtain ⟨os, hos, hpls, hnes⟩ := gp_of_wf hs
  obtain ⟨oc, hoc, hplc, hnec⟩ := gp_of_wf hc
  obtain ⟨oh, hoh, hplh, hneh⟩ := gp_of_wf hh
  obtain ⟨od, hod, hpld, hned⟩ := gp_of_wf hd
  have hbl : boardPlayList b = os.getD [] ++ oc.getD [] ++ oh.getD [] ++ od.getD [] := by
    unfold boardPlayList
    rw [hpls, hplc, hplh, hpld]
  constructor
  · unfold GameBoard.get_playable_cards
    rw [hos, hoc, hoh, hod]
    dsimp only
    rw [hbl]
    rcases hcat : os.getD [] ++ oc.getD [] ++ oh.getD [] ++ od.getD [] with _ | ⟨x, xs⟩
    · simp
    · have hp : (x :: xs).length > 0 := by simp
      have hne : x :: xs ≠ [] := by simp
      rw [if_pos hp, if_neg hne]
  · rw [hbl]
    constructor
    · intro hnil
      simp only [List.append_eq_nil] at hnil
      obtain ⟨⟨⟨h1, h2⟩, h3⟩, h4⟩ := hnil
      have gnone : ∀ (st : Stack) (o : Option (List Card)),
          st.get_playable_cards = .ok o → (∀ l, o = some l → l ≠ []) →
          o.getD [] = [] → st.get_playable_cards = .ok none := by
        intro st o hgp hne hget
        cases o with
        | none => exact hgp
        | some l => exact absurd hget (hne l rfl)
      exact ⟨gnone _ _ hos hnes h1, gnone _ _ hoc hnec h2,
        gnone _ _ hoh hneh h3, gnone _ _ hod hned h4⟩
    · rintro ⟨h1, h2, h3, h4⟩
      rw [hos] at h1
      rw [hoc] at h2
      rw [hoh] at h3
      rw [hod] at h4
      cases h1
      cases h2
      cases h3
      cases h4
      rfl

lemma stack_play_of_mem {st : Stack} {c : Card} (h : wfB st = true)
    (hc : c ∈ playList st) :
    c.suit = st.suit ∧ ∃ st2, st.play_card c.number = .ok st2 ∧ wfB st2 = true
      ∧ st2.suit = st.suit ∧ playedCount st2 = playedCount st + 1 := by
  have hsu : c.suit = st.suit := (master_split h).2.2.1 c hc
  have hm : (⟨st.suit, c.number⟩ : Card) ∈ playList st := by
    rcases c with ⟨cs, cn⟩
    simp only at hsu
    rw [← hsu]
    exact hc
  obtain ⟨st2, hok⟩ := play_of_mem h hm
  have hf := play_ok_facts h hok
  exact ⟨hsu, st2, hok, hf.2.1, hf.2.2.1, hf.2.2.2.2.2.2.2.2.2.2⟩

lemma board_play {b : GameBoard} {c : Card} (h : wf4B b = true)
    (hc : c ∈ boardPlayList b) :
    ∃ b2, b.play_card c = .ok b2 ∧ wf4B b2 = true
      ∧ boardPlayedCount b2 = boardPlayedCount b + 1 := by
  obtain ⟨hs, hcl, hh, hd, hss, hcs, hhs, hds⟩ := wf4_split h
  unfold boardPlayList at hc
  simp only [List.mem_append] at hc
  rcases c with ⟨cs, cn⟩
  rcases hc with ((hc | hc) | hc) | hc
  · obtain ⟨hsu, st2, hok, hwf2, hsu2, hcnt⟩ := stack_play_of_mem hs hc
    dsimp only at hsu
    rw [hss] at hsu
    subst hsu
    refine ⟨{ b with spade_stack := st2 }, ?_, ?_, ?_⟩
    · simp only [GameBoard.play_card, hok]
    · simp only [wf4B, Bool.and_eq_true, decide_eq_true_eq, and_assoc]
      exact ⟨hwf2, hcl, hh, hd, hsu2.trans hss, hcs, hhs, hds⟩
    · unfold boardPlayedCount
      dsimp only
      rw [hcnt]
      omega
  · obtain ⟨hsu, st2, hok, hwf2, hsu2, hcnt⟩ := stack_play_of_mem hcl hc
    dsimp only at hsu
    rw [hcs] at hsu
    subst hsu
    refine ⟨{ b with club_stack := st2 }, ?_, ?_, ?_⟩
    · simp only [GameBoard.play_card, hok]
    · simp only [wf4B, Bool.and_eq_true, decide_eq_true_eq, and_assoc]
      exact ⟨hs, hwf2, hh, hd, hss, hsu2.trans hcs, hhs, hds⟩
    · unfold boardPlayedCount
      dsimp only
      rw [hcnt]
      omega
  · obtain ⟨hsu, st2, hok, hwf2, hsu2, hcnt⟩ := stack_play_of_mem hh hc
    dsimp only at hsu
    rw [hhs] at hsu
    subst hsu
    refine ⟨{ b with heart_stack := st2 }, ?_, ?_, ?_⟩
    · simp only [GameBoard.play_card, hok]
    · simp only [wf4B, Bool.and_eq_true, decide_eq_true_eq, and_assoc]
      exact ⟨hs, hcl, hwf2, hd, hss, hcs, hsu2.trans hhs, hds⟩
    · unfold boardPlayedCount
      dsimp only
      rw [hcnt]
      omega
  · obtain ⟨hsu, st2, hok, hwf2, hsu2, hcnt⟩ := stack_play_of_mem hd hc
    dsimp only at hsu
    rw [hds] at hsu
    subst hsu
    refine ⟨{ b with diamond_stack := st2 }, ?_, ?_, ?_⟩
    · simp only [GameBoard.play_card, hok]
    · simp only [wf4B, Bool.and_eq_true, decide_eq_true_eq, and_assoc]
      exact ⟨hs, hcl, hh, hwf2, hss, hcs, hhs, hsu2.trans hds⟩
    · unfold boardPlayedCount
      dsimp only
      rw [hcnt]
      omega

lemma pass_turn_frame {s s2 : GameState} (h : s.pass_turn = .ok s2) :
    s2.players = s.players ∧ s2.game_board = s.game_board := by
  unfold GameState.pass_turn at h
  split at h
  · cases h
  · split at h
    · cases h
      exact ⟨rfl, rfl⟩
    · cases h
      exact ⟨rfl, rfl⟩

lemma pass_turn_ok {s : GameState} (h : s.player_turn ≠ 255) :
    ∃ s2, s.pass_turn = .ok s2 ∧ s2.players = s.players
      ∧ s2.game_board = s.game_board := by
  unfold GameState.pass_turn
  rw [if_neg h]
  split
  · exact ⟨_, rfl, rfl, rfl⟩
  · exact ⟨_, rfl, rfl, rfl⟩

lemma pass_turn_step {s : GameState} (h1 : 1 ≤ s.players.length)
    (h2 : s.players.length ≤ 26) (h3 : s.player_turn < s.players.length) :
    s.pass_turn
      = .ok { s with player_turn := (s.player_turn + 1) % s.players.length } := by
  unfold GameState.pass_turn
  have h255 : s.player_turn ≠ 255 := by omega
  rw [if_neg h255]
  have hm : (s.players.length % 256 + 255) % 256 = s.players.length - 1 := by omega
  rw [hm]
  by_cases hlt : s.player_turn < s.players.length - 1
  · rw [if_pos hlt]
    have hmod : (s.player_turn + 1) % s.players.length = s.player_turn + 1 :=
      Nat.mod_eq_of_lt (by omega)
    rw [hmod]
  · rw [if_neg hlt]
    have hmod : (s.player_turn + 1) % s.players.length = 0 := by
      have ht : s.player_turn + 1 = s.players.length := by omega
      rw [ht, Nat.mod_self]
    rw [hmod]

lemma pass_turn_error_iff {s : GameState} :
    s.pass_turn = .error .OverflowError ↔ s.player_turn = 255 := by
  constructor
  · intro h
    unfold GameState.pass_turn at h
    by_contra hne
    rw [if_neg hne] at h
    split at h <;> cases h
  · intro h
    unfold GameState.pass_turn
    rw [if_pos h]

lemma passTurnIter_mod : ∀ (j : Nat) (s : GameState),
    1 ≤ s.players.length → s.players.length ≤ 26 →
    s.player_turn < s.players.length → j + s.player_turn ≤ s.players.length →
    passTurnIter j s
      = .ok { s with player_turn := (s.player_turn + j) % s.players.length } := by
  intro j
  induction j with
  | zero =>
    intro s _ _ h3 _
    unfold passTurnIter
    rw [Nat.add_zero, Nat.mod_eq_of_lt h3]
  | succ n ih =>
    intro s h1 h2 h3 h4
    unfold passTurnIter
    rw [pass_turn_step h1 h2 h3]
    dsimp only
    have h3new : (s.player_turn + 1) % s.players.length < s.players.length :=
      Nat.mod_lt _ (by omega)
    have h4new : n + (s.player_turn + 1) % s.players.length ≤ s.players.length := by
      have := Nat.mod_le (s.player_turn + 1) s.players.length
      omega
    rw [ih { s with player_turn := (s.player_turn + 1) % s.players.length } h1 h2
      h3new h4new]
    dsimp only
    rw [Nat.mod_add_mod]
    have harith : s.player_turn + 1 + n = s.player_turn + (n + 1) := by omega
    rw [harith]

lemma play_only_unfold {s : GameState} {c : Card} (hw : wf4B s.game_board = true)
    (hc : boardPlayList s.game_board = [c]) :
    ∃ b2, s.game_board.play_card c = .ok b2 ∧ wf4B b2 = true
      ∧ boardPlayedCount b2 = boardPlayedCount s.game_board + 1
      ∧ s.play_only_playable_card = GameState.pass_turn { s with game_board := b2 } := by
  have hgp := (board_gp hw).1
  have hne : boardPlayList s.game_board ≠ [] := by rw [hc]; simp
  rw [if_neg hne, hc] at hgp
  obtain ⟨b2, hok, hwf2, hcnt⟩ := board_play (c := c) hw (by rw [hc]; simp)
  refine ⟨b2, hok, hwf2, hcnt, ?_⟩
  unfold GameState.play_only_playable_card
  rw [hgp]
  dsimp only
  rw [if_neg (by simp : ¬ ([c] : List Card).length > 1)]
  rw [hok]

lemma pcrn_unfold {s : GameState} {c : Card} (hw : wf4B s.game_board = true)
    (h2 : 2 ≤ (boardPlayList s.game_board).length)
    (hc : c ∈ boardPlayList s.game_board) :
    ∃ b2, s.game_board.play_card c = .ok b2 ∧ wf4B b2 = true
      ∧ boardPlayedCount b2 = boardPlayedCount s.game_board + 1
      ∧ s.play_card_and_return_new c
          = GameState.pass_turn { s with game_board := b2 } := by
  have hgp := (board_gp hw).1
  have hne : boardPlayList s.game_board ≠ [] := by
    intro h0
    rw [h0] at h2
    simp at h2
  rw [if_neg hne] at hgp
  obtain ⟨x, y, t, hxyt⟩ : ∃ x y t, boardPlayList s.game_board = x :: y :: t := by
    obtain ⟨x, xs, hx⟩ := List.exists_cons_of_ne_nil hne
    have hxs : xs ≠ [] := by
      intro h0
      rw [hx, h0] at h2
      simp at h2
    obtain ⟨y, t, hy⟩ := List.exists_cons_of_ne_nil hxs
    exact ⟨x, y, t, by rw [hx, hy]⟩
  obtain ⟨b2, hok, hwf2, hcnt⟩ := board_play hw hc
  refine ⟨b2, hok, hwf2, hcnt, ?_⟩
  unfold GameState.play_card_and_return_new
  rw [hgp, hxyt]
  dsimp only [List.length_cons]
  rw [if_pos (by rw [← hxyt]; exact hc)]
  rw [hok]

lemma play_only_frame {s s2 : GameState} (h : s.play_only_playable_card = .ok s2) :
    s2.players = s.players := by
  unfold GameState.play_only_playable_card at h
  split at h
  · cases h
  · cases h
  · split at h
    · cases h
    · split at h
      · cases h
      · split at h
        · cases h
        · exact (pass_turn_frame h).1

lemma pcrn_frame {s s2 : GameState} {c : Card}
    (h : s.play_card_and_return_new c = .ok s2) : s2.players = s.players := by
  unfold GameState.play_card_and_return_new at h
  split at h
  · cases h
  · cases h
  · split at h
    · cases h
    · cases h
    · split at h
      · split at h
        · cases h
        · exact (pass_turn_frame h).1
      · cases h

lemma mapPlays_frame : ∀ (cards : List Card) (s : GameState) (ts : List GameState),
    mapPlays s cards = .ok ts → ∀ t ∈ ts, t.players = s.players := by
  intro cards
  induction cards with
  | nil =>
    intro s ts h t ht
    unfold mapPlays at h
    cases h
    exact absurd ht (List.not_mem_nil t)
  | cons c rest ih =>
    intro s ts h t ht
    unfold mapPlays at h
    split at h
    · cases h
    · split at h
      · cases h
      · cases h
        rcases List.mem_cons.mp ht with h1 | h1
        · subst h1
          exact pcrn_frame (by assumption)
        · exact ih s _ (by assumption) t h1

lemma assess_frame {s : GameState} {d : Decision} (h : assess_decision s = .ok d) :
    ∀ t ∈ decStates d, t.players = s.players := by
  unfold assess_decision at h
  split at h
  · cases h
  · split at h
    · cases h
      intro t ht
      exact absurd ht (List.not_mem_nil t)
    · split at h
      · cases h
      · split at h
        · cases h
        · cases h
          intro t ht
          rw [List.mem_singleton.mp ht]
          exact (pass_turn_frame (by
            have hg : s.get_playable_cards = .ok none := by assumption
            assumption)).1
      · split at h
        · split at h
          · cases h
          · cases h
            intro t ht
            rw [List.mem_singleton.mp ht]
            exact play_only_frame (by assumption)
        · split at h
          · cases h
          · cases h
            intro t ht
            exact mapPlays_frame _ s _ (by assumption) t ht

lemma mapPlays_inv {s : GameState} (hw : wf4B s.game_board = true)
    (hlen2 : 2 ≤ (boardPlayList s.game_board).length)
    (h1 : 1 ≤ s.players.length) (h26 : s.players.length ≤ 26)
    (ht : s.player_turn < s.players.length) :
    ∀ cards, (∀ c ∈ cards, c ∈ boardPlayList s.game_board) →
    ∃ ts, mapPlays s cards = .ok ts ∧ ts.length = cards.length
      ∧ ∀ u ∈ ts, u.players = s.players ∧ wf4B u.game_board = true
        ∧ u.player_turn = (s.player_turn + 1) % s.players.length := by
  intro cards
  induction cards with
  | nil =>
    intro _
    exact ⟨[], rfl, rfl, by simp⟩
  | cons c rest ih =>
    intro hmem
    obtain ⟨b2, hok, hwf2, hcnt, heq⟩ := pcrn_unfold hw hlen2 (hmem c (by simp))
    have hpt : GameState.pass_turn { s with game_board := b2 }
        = .ok { s with game_board := b2,
                       player_turn := (s.player_turn + 1) % s.players.length } :=
      pass_turn_step (s := { s with game_board := b2 }) h1 h26 ht
    obtain ⟨ts, hts, htslen, htsinv⟩ := ih (fun c2 hc2 => hmem c2 (by simp [hc2]))
    refine ⟨({ s with game_board := b2, player_turn := (s.player_turn + 1) % s.players.length } :: ts), ?_, ?_, ?_⟩
    · unfold mapPlays
      rw [heq, hpt, hts]
    · simp [htslen]
    · intro u hu
      rcases List.mem_cons.mp hu with h0 | h0
      · subst h0
        exact ⟨rfl, hwf2, rfl⟩
      · exact htsinv u h0

lemma assess_inv {s : GameState} (hs : RunInv s) :
    ∃ d, assess_decision s = .ok d
      ∧ (∀ p, d ≠ .Victory p)
      ∧ decStates d ≠ []
      ∧ ∀ t ∈ decStates d, RunInv t := by
  obtain ⟨hw, hturn, hlen, hhands⟩ := hs
  have h1 : 1 ≤ s.players.length := by omega
  have hpl : s.players.get? s.player_turn
      = some (s.players.get ⟨s.player_turn, hturn⟩) := List.get?_eq_get hturn
  have hplmem : s.players.get ⟨s.player_turn, hturn⟩ ∈ s.players :=
    List.get_mem _ _ _
  have hne : (s.players.get ⟨s.player_turn, hturn⟩).hand ≠ [] := hhands _ hplmem
  have hemp : (s.players.get ⟨s.player_turn, hturn⟩).hand.isEmpty ≠ true := by
    cases hh : (s.players.get ⟨s.player_turn, hturn⟩).hand with
    | nil => exact absurd hh hne
    | cons a t => simp
  have hgp := (board_gp hw).1
  unfold assess_decision
  rw [hpl]
  dsimp only
  rw [if_neg hemp]
  unfold GameState.get_playable_cards
  by_cases hbl : boardPlayList s.game_board = []
  · rw [if_pos hbl] at hgp
    rw [hgp]
    dsimp only
    rw [pass_turn_step h1 hlen hturn]
    refine ⟨.NoPlayableCards _, rfl, ?_, ?_, ?_⟩
    · intro p hcon
      simp at hcon
    · simp [decStates]
    · intro t htm
      rw [List.mem_singleton.mp htm]
      exact ⟨hw, Nat.mod_lt _ (by omega), hlen, hhands⟩
  · rw [if_neg hbl] at hgp
    rw [hgp]
    dsimp only
    by_cases hone : (boardPlayList s.game_board).length = 1
    · rw [if_pos hone]
      obtain ⟨c, hc⟩ := List.length_eq_one.mp hone
      obtain ⟨b2, hok, hwf2, hcnt, heq⟩ := play_only_unfold hw hc
      rw [heq, pass_turn_step (s := { s with game_board := b2 }) h1 hlen hturn]
      refine ⟨.OnePlayableCard _, rfl, ?_, ?_, ?_⟩
      · intro p hcon
        simp at hcon
      · simp [decStates]
      · intro t htm
        rw [List.mem_singleton.mp htm]
        have hmodlt : (s.player_turn + 1) % s.players.length < s.players.length :=
          Nat.mod_lt _ (by omega)
        exact ⟨hwf2, hmodlt, hlen, hhands⟩
    · rw [if_neg hone]
      have hlen2 : 2 ≤ (boardPlayList s.game_board).length := by
        have := List.length_pos.mpr hbl
        omega
      obtain ⟨ts, hts, htslen, htsinv⟩ :=
        mapPlays_inv hw hlen2 h1 hlen hturn (boardPlayList s.game_board)
          (fun c hc => hc)
      rw [hts]
      refine ⟨.MultiplePlayableCards ts, rfl, ?_, ?_, ?_⟩
      · intro p hcon
        simp at hcon
      · intro h0
        have h0t : ts = [] := h0
        rw [h0t] at htslen
        simp at htslen
        omega
      · intro t htm
        obtain ⟨hp, hwf, hptv⟩ := htsinv t htm
        refine ⟨hwf, ?_, ?_, ?_⟩
        · rw [hp, hptv]
          exact Nat.mod_lt _ (by omega)
        · rw [hp]
          exact hlen
        · rw [hp]
          exact hhands

lemma loopStep_inv {initial : GameState} (hInit : RunInv initial) {cfg : LoopConfig}
    (hcfg : CfgInv cfg) :
    ∃ cfg2, loopStep initial cfg = .ok cfg2 ∧ CfgInv cfg2 := by
  obtain ⟨hbr, hcur, hvic⟩ := hcfg
  have hst : RunInv (cfg.current.getD initial) := by
    cases hc : cfg.current with
    | none => simpa using hInit
    | some t => simpa using hcur t hc
  obtain ⟨d, hd, hnv, hne, hts⟩ := assess_inv hst
  unfold loopStep
  rw [hd]
  cases d with
  | Victory p => exact absurd rfl (hnv p)
  | NoPlayableCards t =>
    refine ⟨⟨cfg.branches, cfg.victories, some t⟩, rfl, hbr, ?_, hvic⟩
    intro u hu
    cases hu
    exact hts t (by simp [decStates])
  | OnePlayableCard t =>
    refine ⟨⟨cfg.branches, cfg.victories, some t⟩, rfl, hbr, ?_, hvic⟩
    intro u hu
    cases hu
    exact hts t (by simp [decStates])
  | MultiplePlayableCards l =>
    have hlne : (cfg.branches ++ l) ≠ [] := by
      intro h0
      rcases List.append_eq_nil.mp h0 with ⟨-, h2⟩
      exact hne (by simpa [decStates] using h2)
    refine ⟨⟨(cfg.branches ++ l).dropLast, cfg.victories,
      some ((cfg.branches ++ l).getLast hlne)⟩, ?_, ?_, ?_, hvic⟩
    · dsimp only [process_branches]
      rw [List.getLast?_eq_getLast _ hlne]
    · intro u hu
      have hu2 := List.mem_of_mem_dropLast hu
      rcases List.mem_append.mp hu2 with h0 | h0
      · exact hbr u h0
      · exact hts u (by simpa [decStates] using h0)
    · intro u hu
      cases hu
      have hmem := List.getLast_mem hlne
      rcases List.mem_append.mp hmem with h0 | h0
      · exact hbr _ h0
      · exact hts _ (by simpa [decStates] using h0)

lemma loopIter_inv {initial : GameState} (hInit : RunInv initial) :
    ∀ (n : Nat) {cfg : LoopConfig}, CfgInv cfg →
    ∃ cfg2, loopIter initial n cfg = .ok cfg2 ∧ CfgInv cfg2 := by
  intro n
  induction n with
  | zero =>
    intro cfg h
    exact ⟨cfg, rfl, h⟩
  | succ m ih =>
    intro cfg h
    obtain ⟨cfg1, h1, hinv1⟩ := loopStep_inv hInit h
    obtain ⟨cfg2, h2, hinv2⟩ := ih hinv1
    refine ⟨cfg2, ?_, hinv2⟩
    unfold loopIter
    rw [h1]
    exact h2

lemma distStep_none {deck : List Card} {v : List Nat} :
    distStep deck none v = none := rfl

lemma foldl_distStep_none {deck : List Card} :
    ∀ outs : List (List Nat), outs.foldl (distStep deck) none = none := by
  intro outs
  induction outs with
  | nil => rfl
  | cons v t ih =>
    rw [List.foldl_cons, distStep_none]
    exact ih

lemma TL_none {dl : Nat} {v : List Nat} : TL dl none v = none := rfl

lemma foldl_TL_none {dl : Nat} :
    ∀ outs : List (List Nat), outs.foldl (TL dl) none = none := by
  intro outs
  induction outs with
  | nil => rfl
  | cons v t ih =>
    rw [List.foldl_cons, TL_none]
    exact ih

lemma step_commute {deck : List Card} (acc : List Player) (v : List Nat) :
    (distStep deck (some acc) v).map (fun ps => ps.map (fun p => p.hand.length))
      = TL deck.length (some (acc.map (fun p => p.hand.length))) v := by
  unfold distStep TL
  cases hv0 : v[0]? with
  | none => simp [hv0]
  | some i =>
    cases hv1 : v[1]? with
    | none => simp [hv0, hv1]
    | some j =>
      cases hpi : acc[i]? with
      | none =>
        have hmap : (acc.map (fun p => p.hand.length))[i]? = none := by
          rw [List.getElem?_map, hpi]
          rfl
        cases hdj : deck[j]? with
        | none => simp [hv0, hv1, hpi, hdj, hmap]
        | some c => simp [hv0, hv1, hpi, hdj, hmap]
      | some p =>
        have hmap : (acc.map (fun p => p.hand.length))[i]?
            = some p.hand.length := by
          rw [List.getElem?_map, hpi]
          rfl
        cases hdj : deck[j]? with
        | none =>
          have hj : ¬ j < deck.length := by
            have := List.getElem?_eq_none_iff.mp hdj
            omega
          simp [hv0, hv1, hpi, hdj, hmap, hj]
        | some c =>
          have hj : j < deck.length := by
            by_contra hge
            rw [List.getElem?_eq_none_iff.mpr (by omega)] at hdj
            cases hdj
          simp [hv0, hv1, hpi, hdj, hmap, hj, List.map_set]

lemma fold_commute {deck : List Card} :
    ∀ (outs : List (List Nat)) (acc : List Player),
    (outs.foldl (distStep deck) (some acc)).map
        (fun ps => ps.map (fun p => p.hand.length))
      = outs.foldl (TL deck.length) (some (acc.map (fun p => p.hand.length))) := by
  intro outs
  induction outs with
  | nil =>
    intro acc
    rfl
  | cons v t ih =>
    intro acc
    simp only [List.foldl_cons]
    cases hstep : distStep deck (some acc) v with
    | none =>
      have hTL : TL deck.length (some (acc.map (fun p => p.hand.length))) v
          = none := by
        have hsc := @step_commute deck acc v
        rw [hstep] at hsc
        simpa using hsc.symm
      rw [hTL, foldl_distStep_none, foldl_TL_none]
      rfl
    | some acc2 =>
      have hTL : TL deck.length (some (acc.map (fun p => p.hand.length))) v
          = some (acc2.map (fun p => p.hand.length)) := by
        have hsc := @step_commute deck acc v
        rw [hstep] at hsc
        simpa using hsc.symm
      rw [hTL]
      exact ih acc2

lemma outs4_eq : counterRun 100 (MultiCounter.new [4, 52] false)
    = (List.range 52).map (fun i => [i % 4, i]) := by decide

lemma TL_fold52 : ((List.range 52).map (fun i => [i % 4, i])).foldl (TL 52)
    (some [0, 0, 0, 0]) = some [13, 13, 13, 13] := by decide

lemma dealLengths {deck : List Card} (h52 : deck.length = 52) :
    (distribute_cards 4 deck).map (fun ps => ps.map (fun p => p.hand.length))
      = some [13, 13, 13, 13] := by
  unfold distribute_cards
  rw [fold_commute]
  have hrep : (List.replicate 4 Player.new).map (fun p => p.hand.length)
      = [0, 0, 0, 0] := rfl
  rw [hrep, outs4_eq, h52]
  exact TL_fold52

lemma gsNew_inv {deck : List Card} (h52 : deck.length = 52) {s0 : GameState}
    (h : GameState.new 4 deck = some (.ok s0)) : RunInv s0 := by
  unfold GameState.new at h
  rw [if_neg (by omega)] at h
  cases hdc : distribute_cards 4 deck with
  | none =>
    rw [hdc] at h
    cases h
  | some ps =>
    rw [hdc] at h
    simp only [Option.map_some', Option.some.injEq, Except.ok.injEq] at h
    have hd := dealLengths h52
    rw [hdc] at hd
    simp only [Option.map_some', Option.some.injEq] at hd
    have hlen : ps.length = 4 := by
      have hl := congrArg List.length hd
      simpa using hl
    have hhands : ∀ p ∈ ps, p.hand ≠ [] := by
      intro p hp hnil
      have hmem : p.hand.length ∈ ps.map (fun q => q.hand.length) :=
        List.mem_map_of_mem _ hp
      rw [hd, hnil] at hmem
      simp at hmem
    rw [← h]
    exact ⟨(by decide : wf4B GameBoard.new = true), by simp [hlen], by simp [hlen],
      hhands⟩

lemma dist0 {deck : List Card} : distribute_cards 0 deck = none := by
  unfold distribute_cards
  have h1 : counterRun 100 (MultiCounter.new [0, 52] false)
      = [0, 0] :: counterRun 99 ((MultiCounter.new [0, 52] false).increment) := rfl
  rw [h1, List.foldl_cons]
  have h2 : distStep deck (some (List.replicate 0 Player.new)) [0, 0] = none := rfl
  rw [h2]
  exact foldl_distStep_none _

lemma rv_bounds (n : NumberEnum) : 1 ≤ rv n ∧ rv n ≤ 13 := by
  cases n <;> decide

lemma wf_shape {st : Stack} (h : wfB st = true) :
    (st.up_card = none ↔ st.down_card = none)
    ∧ (∀ u, st.up_card = some u → 7 ≤ rv u.number)
    ∧ (∀ d, st.down_card = some d → rv d.number ≤ 7) := by
  rcases st with ⟨su, up, dn⟩
  rcases up with _ | u <;> rcases dn with _ | d
  · simp
  · simp [wfB] at h
  · simp [wfB] at h
  · simp only [wfB, Bool.and_eq_true, decide_eq_true_eq] at h
    refine ⟨by simp, ?_, ?_⟩
    · intro u2 hu2
      cases hu2
      exact h.1.2
    · intro d2 hd2
      cases hd2
      exact h.2

lemma reach_wf {st : Stack} (h : ReachableStack st) : wfB st = true := by
  induction h with
  | base su => rfl
  | step n hr hp ih => exact (play_ok_facts ih hp).2.1

lemma king_chain {st st2 : Stack} (hw : wfB st = true) (hk : upIsKing st = true)
    (h : ReachPlays st st2) : wfB st2 = true ∧ upIsKing st2 = true := by
  unfold ReachPlays at h
  induction h with
  | refl => exact ⟨hw, hk⟩
  | tail hab hbc ih =>
    obtain ⟨hwb, hkb⟩ := ih
    obtain ⟨n, hn⟩ := hbc
    have hf := play_ok_facts hwb hn
    exact ⟨hf.2.1, hf.2.2.2.2.2.2.2.2.1 hkb⟩

lemma ace_chain {st st2 : Stack} (hw : wfB st = true) (hk : downIsAce st = true)
    (h : ReachPlays st st2) : wfB st2 = true ∧ downIsAce st2 = true := by
  unfold ReachPlays at h
  induction h with
  | refl => exact ⟨hw, hk⟩
  | tail hab hbc ih =>
    obtain ⟨hwb, hkb⟩ := ih
    obtain ⟨n, hn⟩ := hbc
    have hf := play_ok_facts hwb hn
    exact ⟨hf.2.1, hf.2.2.2.2.2.2.2.2.2.1 hkb⟩

/-- C4: for every Stack reachable from Stack::new by successful play_card
calls, up_card and down_card are both unset or both set; a set up_card holds
rank Seven..King and never decreases across a play, a set down_card holds
rank Ace..Seven and never increases; and once up_card is King (resp.
down_card is Ace) no card of that direction (rank above Seven, resp. below
Seven) ever again appears in get_playable_cards() of any later state. -/
theorem c4_stack_invariants : ∀ st : Stack, ReachableStack st →
    (st.up_card = none ↔ st.down_card = none)
    ∧ (∀ u, st.up_card = some u → 7 ≤ rv u.number ∧ rv u.number ≤ 13)
    ∧ (∀ d, st.down_card = some d → 1 ≤ rv d.number ∧ rv d.number ≤ 7)
    ∧ (∀ n st2, st.play_card n = .ok st2 →
        (∀ u, st.up_card = some u →
          ∃ u2, st2.up_card = some u2 ∧ rv u.number ≤ rv u2.number)
        ∧ (∀ d, st.down_card = some d →
          ∃ d2, st2.down_card = some d2 ∧ rv d2.number ≤ rv d.number))
    ∧ (upIsKing st = true → ∀ st2, ReachPlays st st2 →
        ∀ c ∈ playList st2, rv c.number ≤ 6)
    ∧ (downIsAce st = true → ∀ st2, ReachPlays st st2 →
        ∀ c ∈ playList st2, 8 ≤ rv c.number) := by
  intro st hreach
  have hw := reach_wf hreach
  obtain ⟨hiff, hup, hdn⟩ := wf_shape hw
  refine ⟨hiff, ?_, ?_, ?_, ?_, ?_⟩
  · intro u hu
    exact ⟨hup u hu, (rv_bounds u.number).2⟩
  · intro d hd
    exact ⟨(rv_bounds d.number).1, hdn d hd⟩
  · intro n st2 hok
    have hf := play_ok_facts hw hok
    constructor
    · intro u hu
      have hsome : st2.up_card.isSome = true := hf.2.2.2.2.1 (by rw [hu]; rfl)
      cases hu2 : st2.up_card with
      | none =>
        rw [hu2] at hsome
        cases hsome
      | some u2 =>
        refine ⟨u2, rfl, ?_⟩
        have hr := hf.2.2.2.2.2.2.1
        unfold upRankO at hr
        rw [hu, hu2] at hr
        exact hr
    · intro d hd
      have hsome : st2.down_card.isSome = true := hf.2.2.2.2.2.1 (by rw [hd]; rfl)
      cases hd2 : st2.down_card with
      | none =>
        rw [hd2] at hsome
        cases hsome
      | some d2 =>
        refine ⟨d2, rfl, ?_⟩
        have hr := hf.2.2.2.2.2.2.2.1
        unfold downRankO at hr
        rw [hd, hd2] at hr
        exact hr
  · intro hking st2 hplays c hc
    obtain ⟨hw2, hk2⟩ := king_chain hw hking hplays
    exact (master_split hw2).2.2.2.1 hk2 c hc
  · intro hace st2 hplays c hc
    obtain ⟨hw2, hk2⟩ := ace_chain hw hace hplays
    exact (master_split hw2).2.2.2.2.1 hk2 c hc

/-- C4 witness: the invariant theorem applied at the concrete reachable stack
Stack.new Spade. -/
theorem c4_stack_invariants_witness :
    (Stack.new SuitEnum.Spade).up_card = none
      ↔ (Stack.new SuitEnum.Spade).down_card = none :=
  (c4_stack_invariants (Stack.new .Spade) (.base .Spade)).1

/-- C5: for every well-formed Stack and every rank r, play_card r returns Ok
iff the card (stack suit, r) is contained in the playable list returned by
get_playable_cards at the time of the call; and after a successful play of r,
rank r no longer occurs in the next get_playable_cards result. -/
theorem c5_play_iff_playable : ∀ st : Stack, wfB st = true → ∀ r : NumberEnum,
    ((∃ st2, st.play_card r = .ok st2) ↔ (⟨st.suit, r⟩ : Card) ∈ playList st)
    ∧ (∀ st2, st.play_card r = .ok st2 → ∀ c ∈ playList st2, c.number ≠ r) := by
  intro st hw r
  constructor
  · constructor
    · rintro ⟨st2, h2⟩
      exact (play_ok_facts hw h2).1
    · intro hm
      exact play_of_mem hw hm
  · intro st2 h2
    exact (play_ok_facts hw h2).2.2.2.1

/-- C5 witness: the theorem applied at the concrete stack with both piles on
Seven and the rank Eight. -/
theorem c5_play_iff_playable_witness :
    ((∃ st2, c5Stack.play_card .Eight = .ok st2)
      ↔ (⟨c5Stack.suit, .Eight⟩ : Card) ∈ playList c5Stack)
    ∧ (∀ st2, c5Stack.play_card .Eight = .ok st2 →
        ∀ c ∈ playList st2, c.number ≠ .Eight) :=
  c5_play_iff_playable c5Stack (by decide) .Eight

/-- C6: for every board whose four stacks are well-formed,
GameBoard::get_playable_cards returns the concatenation (boardPlayList) of
the four stacks' non-empty playable lists, and returns Ok(None) exactly when
all four stacks return Ok(None). -/
theorem c6_board_aggregation : ∀ b : GameBoard, wf4B b = true →
    b.get_playable_cards
      = (if boardPlayList b = [] then .ok none else .ok (some (boardPlayList b)))
    ∧ (b.get_playable_cards = .ok none ↔
        b.spade_stack.get_playable_cards = .ok none
        ∧ b.club_stack.get_playable_cards = .ok none
        ∧ b.heart_stack.get_playable_cards = .ok none
        ∧ b.diamond_stack.get_playable_cards = .ok none) := by
  intro b h
  obtain ⟨heq, hiff⟩ := board_gp h
  refine ⟨heq, ?_⟩
  rw [heq]
  by_cases hbl : boardPlayList b = []
  · rw [if_pos hbl]
    constructor
    · intro _
      exact hiff.mp hbl
    · intro _
      rfl
  · rw [if_neg hbl]
    constructor
    · intro hcon
      simp at hcon
    · intro h4
      exact absurd (hiff.mpr h4) hbl

/-- C6 witness: the aggregation theorem applied at the fresh board. -/
theorem c6_board_aggregation_witness :
    GameBoard.new.get_playable_cards
      = (if boardPlayList GameBoard.new = [] then .ok none
         else .ok (some (boardPlayList GameBoard.new)))
    ∧ (GameBoard.new.get_playable_cards = .ok none ↔
        GameBoard.new.spade_stack.get_playable_cards = .ok none
        ∧ GameBoard.new.club_stack.get_playable_cards = .ok none
        ∧ GameBoard.new.heart_stack.get_playable_cards = .ok none
        ∧ GameBoard.new.diamond_stack.get_playable_cards = .ok none) :=
  c6_board_aggregation GameBoard.new (by decide)

/-- C8: a stack whose up pile holds King and whose down pile holds Ace
returns Ok(None) from get_playable_cards, and play_card fails with
CompletedStackPlayedOn for every rank (returning no successor stack, so the
stack is left unchanged). -/
theorem c8_completed_stack :
    ∀ (su s1 s2 : SuitEnum) (n : NumberEnum),
    (⟨su, some ⟨s1, .King⟩, some ⟨s2, .Ace⟩⟩ : Stack).get_playable_cards
        = .ok none
    ∧ (⟨su, some ⟨s1, .King⟩, some ⟨s2, .Ace⟩⟩ : Stack).play_card n
        = .error .CompletedStackPlayedOn := by
  intro su s1 s2 n
  exact ⟨rfl, rfl⟩

/-- C9: for P players (1 <= P <= 26) starting at seat 0, P calls of pass_turn
return the turn pointer to seat 0; each single call increments by one and
wraps to 0 after seat P-1; and pass_turn fails with OverflowError exactly
when the turn pointer is already 255 before incrementing. -/
theorem c9_turn_wraparound :
    (∀ (P : Nat) (s : GameState), 1 ≤ P → P ≤ 26 → s.players.length = P →
      s.player_turn = 0 →
      ∃ s2, passTurnIter P s = .ok s2 ∧ s2.player_turn = 0
        ∧ s2.players = s.players)
    ∧ (∀ t : GameState, t.players.length ≤ 26 →
        t.player_turn < t.players.length →
        t.pass_turn
          = .ok { t with player_turn := (t.player_turn + 1) % t.players.length })
    ∧ (∀ t : GameState, t.pass_turn = .error .OverflowError ↔ t.player_turn = 255) := by
  refine ⟨?_, ?_, fun t => pass_turn_error_iff⟩
  · intro P s h1 h26 hlen ht0
    have hit := passTurnIter_mod P s (by omega) (by omega) (by omega) (by omega)
    refine ⟨_, hit, ?_, rfl⟩
    show (s.player_turn + P) % s.players.length = 0
    rw [ht0, hlen, Nat.zero_add, Nat.mod_self]
  · intro t h26 hlt
    exact pass_turn_step (by omega) h26 hlt

/-- C9 witness: the wraparound theorem applied at a concrete 3-player state
at seat 0. -/
theorem c9_turn_wraparound_witness :
    ∃ s2, passTurnIter 3 c9State = .ok s2 ∧ s2.player_turn = 0
      ∧ s2.players = c9State.players :=
  c9_turn_wraparound.1 3 c9State (by decide) (by decide) (by decide) rfl

/-- C10: GameState::new rejects a player count with TooManyPlayers exactly
when it exceeds 26; a player count of 0 passes the bounds check, after which
distribute_cards indexes into the empty player vector and construction
reaches its out-of-bounds (non-total) branch, modelled as none. -/
theorem c10_new_bounds : ∀ (n : Nat) (deck : List Card),
    (GameState.new n deck = some (.error .TooManyPlayers) ↔ 26 < n)
    ∧ GameState.new 0 deck = none
    ∧ distribute_cards 0 deck = none := by
  intro n deck
  refine ⟨⟨?_, ?_⟩, ?_, dist0⟩
  · intro h
    by_contra hle
    unfold GameState.new at h
    rw [if_neg (by omega)] at h
    cases hdc : distribute_cards n deck with
    | none =>
      rw [hdc] at h
      cases h
    | some ps =>
      rw [hdc] at h
      simp at h
  · intro h
    unfold GameState.new
    rw [if_pos (by omega)]
  · unfold GameState.new
    rw [if_neg (by omega), dist0]
    rfl

/-- C3: no GameState operation modifies any player's hand: pass_turn,
play_only_playable_card, play_card_and_return_new and assess_decision all
produce successors whose players list (hand contents and sizes) is identical
to the parent's; and a board-legal card can be played through
play_card_and_return_new even when no player's hand contains it (witnessed at
c3State, whose hands hold no Seven at all). -/
theorem c3_hands_frame :
    (∀ s s2 : GameState, s.pass_turn = .ok s2 → s2.players = s.players)
    ∧ (∀ s s2 : GameState, s.play_only_playable_card = .ok s2 →
        s2.players = s.players)
    ∧ (∀ (s : GameState) (c : Card) (s2 : GameState),
        s.play_card_and_return_new c = .ok s2 → s2.players = s.players)
    ∧ (∀ (s : GameState) (d : Decision), assess_decision s = .ok d →
        ∀ t ∈ decStates d, t.players = s.players)
    ∧ (∀ p ∈ c3State.players, (⟨.Spade, .Seven⟩ : Card) ∉ p.hand)
    ∧ isOkB (c3State.play_card_and_return_new ⟨.Spade, .Seven⟩) = true := by
  refine ⟨fun s s2 h => (pass_turn_frame h).1,
    fun s s2 h => play_only_frame h,
    fun s c s2 h => pcrn_frame h,
    fun s d h => assess_frame h,
    by decide, by decide⟩

/-- C3 witness: the frame theorem's pass_turn component applied at the
concrete state c3State. -/
theorem c3_hands_frame_witness :
    ({ c3State with player_turn := 1 } : GameState).players = c3State.players :=
  c3_hands_frame.1 c3State { c3State with player_turn := 1 } rfl

/-- C7: on a well-formed board, play_card_and_return_new fails with
NoPlayableCard when the board has zero legal plays, with OnlyOnePlayableCard
when exactly one exists, with UnplayableCard when at least two exist but the
requested card is not among them, and otherwise returns a new state whose
board has the card played and whose turn is advanced by pass_turn; the
original state is untouched (the operation takes the state by value in this
embedding, mirroring the Rust &self receiver that clones). -/
theorem c7_pcrn_errors : ∀ (s : GameState) (card : Card),
    wf4B s.game_board = true → s.player_turn ≠ 255 →
    (s.game_board.get_playable_cards = .ok none →
      s.play_card_and_return_new card
        = .error (.NoPlayableCard "play_card_and_return"))
    ∧ (∀ c0, s.game_board.get_playable_cards = .ok (some [c0]) →
      s.play_card_and_return_new card = .error .OnlyOnePlayableCard)
    ∧ (∀ l, s.game_board.get_playable_cards = .ok (some l) → 2 ≤ l.length →
        card ∉ l → s.play_card_and_return_new card = .error .UnplayableCard)
    ∧ (∀ l, s.game_board.get_playable_cards = .ok (some l) → 2 ≤ l.length →
        card ∈ l →
        ∃ b2 s2, s.game_board.play_card card = .ok b2
          ∧ s.play_card_and_return_new card = .ok s2
          ∧ s2.game_board = b2 ∧ s2.players = s.players
          ∧ GameState.pass_turn { s with game_board := b2 } = .ok s2) := by
  intro s card hw h255
  refine ⟨?_, ?_, ?_, ?_⟩
  · intro hnone
    unfold GameState.play_card_and_return_new
    rw [hnone]
  · intro c0 hone
    unfold GameState.play_card_and_return_new
    rw [hone]
    rfl
  · intro l hl hlen2 hnotmem
    have hne : l ≠ [] := by
      intro h0
      rw [h0] at hlen2
      simp at hlen2
    obtain ⟨x, xs, hx⟩ := List.exists_cons_of_ne_nil hne
    have hxs : xs ≠ [] := by
      intro h0
      rw [hx, h0] at hlen2
      simp at hlen2
    obtain ⟨y, t, hy⟩ := List.exists_cons_of_ne_nil hxs
    rw [hx, hy] at hl hnotmem
    unfold GameState.play_card_and_return_new
    rw [hl]
    dsimp only [List.length_cons]
    rw [if_neg hnotmem]
  · intro l hl hlen2 hmem
    have hbl := (board_gp hw).1
    have hlbl : l = boardPlayList s.game_board := by
      by_cases h0 : boardPlayList s.game_board = []
      · rw [if_pos h0, hl] at hbl
        simp at hbl
      · rw [if_neg h0, hl] at hbl
        simp only [Except.ok.injEq, Option.some.injEq] at hbl
        exact hbl
    obtain ⟨b2, hok, hwf2, hcnt, heq⟩ :=
      pcrn_unfold hw (by rw [← hlbl]; exact hlen2) (by rw [← hlbl]; exact hmem)
    obtain ⟨s2, hpt, hpl, hgb⟩ :=
      pass_turn_ok (s := { s with game_board := b2 }) h255
    refine ⟨b2, s2, hok, ?_, hgb, hpl, hpt⟩
    rw [heq]
    exact hpt

/-- C7 witness: the success branch of the theorem applied at a fresh-board
state and the Seven of Clubs (one of the four legal plays). -/
theorem c7_pcrn_errors_witness :
    ∃ b2 s2, c7State.game_board.play_card ⟨.Club, .Seven⟩ = .ok b2
      ∧ c7State.play_card_and_return_new ⟨.Club, .Seven⟩ = .ok s2
      ∧ s2.game_board = b2 ∧ s2.players = c7State.players
      ∧ GameState.pass_turn { c7State with game_board := b2 } = .ok s2 :=
  (c7_pcrn_errors c7State ⟨.Club, .Seven⟩ (by decide) (by decide)).2.2.2
    (boardPlayList c7State.game_board) rfl (by decide) (by decide)

/-- C1: the branching fork at the concrete parent c1State (fresh board, four
players, one-card hands, N = 4 legal plays) produces exactly 4 new states,
each with exactly one more card played on the board than the parent — but
every fork's players list is byte-identical to the parent's: each hand still
has size 1, refuting the claim that the current player's hand size is reduced
by one.  (The parent itself is untouched: the fork is a pure function of the
parent in this embedding, mirroring the Rust clone.) -/
theorem c1_fork_hands_unchanged :
    assessIsMultiple (assess_decision c1State) = true
    ∧ c1Forks.length = 4
    ∧ (∀ t ∈ c1Forks, t.players = c1State.players
        ∧ boardPlayedCount t.game_board = boardPlayedCount c1State.game_board + 1)
    ∧ (∀ t ∈ c1Forks, t.players.map (fun p => p.hand.length) = [1, 1, 1, 1]) := by
  decide

/-- C2: the Branch Explorer loop never terminates on any initial 4-player
deal, refuting the claim.  Because no operation ever removes a card from a
hand, every player holds 13 cards forever, Victory is unreachable, and after
any number n of loop iterations the loop has performed no victory and its
guard (victories empty or branches pending) is still true — so main's while
loop can never exit, and no error exit occurs either. -/
theorem c2_branch_explorer_diverges :
    ∀ (deck : List Card), deck.length = 52 →
    ∀ s0 : GameState, GameState.new 4 deck = some (.ok s0) →
    ∀ n : Nat, ∃ cfg, loopIter s0 n initialLoopConfig = .ok cfg
      ∧ cfg.victories = [] ∧ loopGuard cfg = true := by
  intro deck h52 s0 hnew n
  have hinv := gsNew_inv h52 hnew
  have hcfg : CfgInv initialLoopConfig := by
    refine ⟨?_, ?_, rfl⟩
    · intro t ht
      exact absurd ht (List.not_mem_nil t)
    · intro t ht
      cases ht
  obtain ⟨cfg2, hiter, hcinv⟩ := loopIter_inv hinv n hcfg
  exact ⟨cfg2, hiter, hcinv.2.2, by simp [loopGuard, hcinv.2.2]⟩

/-- C2 witness: the divergence theorem applied to the concrete suit-ordered
deck, its 4-player deal c2State, and 2 loop iterations. -/
theorem c2_branch_explorer_diverges_witness :
    ∃ cfg, loopIter c2State 2 initialLoopConfig = .ok cfg
      ∧ cfg.victories = [] ∧ loopGuard cfg = true :=
  c2_branch_explorer_diverges sortedDeck rfl c2State rfl 2
